import Mathlib

/-!
# Verification of the Vibe random-video-chat rendezvous core

Shallow embedding of the coordination logic of `VibeApp` (the matchmaking
queue, the atomic reservation transaction, the match/session batch write,
the report/block ledger, the signaling guards and the skip debounce) as
pure Lean functions over an explicit store state.  The shared Firebase
Realtime Database is modelled as a record of partial maps; its `transaction`
primitive is linearizable per key, so concurrent attempts are modelled as an
arbitrary linearization (a list of sequential applications), and its
multi-path `update` is atomic, so a batch write is modelled as a single
state-transforming function with no intermediate states.
-/

namespace Vibe

/-- Client ids are opaque strings (`generateUID` produces strings). -/
abbrev ClientId := String

/-- Room / session ids are opaque strings (`generateRoomId`). -/
abbrev RoomId := String

/-- Pointwise update of a partial map, mirroring a single-path write
(`none` is a delete, as in a Firebase batch entry with value `null`). -/
def updFun {α β : Type} [DecidableEq α] (m : α → Option β) (k : α) (v : Option β) :
    α → Option β :=
  fun x => if x = k then v else m x

/-- A queue entry.  Only the `reservedBy` field carries coordination state;
the `uid`/`timestamp` payload fields of the source entry are irrelevant to
every claim and omitted. -/
structure QEntry where
  reservedBy : Option ClientId
  deriving DecidableEq

/-- A session record, as written by `createMatch`:
`rooms/{roomId} = {createdBy, createdAt, participants}`. -/
structure Room where
  createdBy : ClientId
  createdAt : Nat
  participants : List ClientId
  deriving DecidableEq

/-- The shared rendezvous store: the `queue/`, `matches/`, `rooms/` and
`reports/` top-level trees of the database. -/
structure Store where
  queue : ClientId → Option QEntry
  matchRows : ClientId → Option RoomId
  rooms : RoomId → Option Room
  reports : ClientId → Option Nat

/-- The empty database. -/
def Store.empty : Store :=
  ⟨fun _ => none, fun _ => none, fun _ => none, fun _ => none⟩

/-- `joinQueue`'s write: `queue/{uid}.set({uid, timestamp})`.  The `set`
overwrites the whole entry, so any previous `reservedBy` is cleared. -/
def enterQueue (c : ClientId) (st : Store) : Store :=
  { st with queue := updFun st.queue c (some ⟨none⟩) }

/-- Explicit leave / disconnect eviction: `queue/{uid}.remove()`. -/
def leaveQueue (c : ClientId) (st : Store) : Store :=
  { st with queue := updFun st.queue c none }

/-- The value the reservation transaction reads at
`queue/{cand}/reservedBy`: `null` both when the entry exists without a
reservation and when the entry is absent altogether. -/
def reservedByOf (st : Store) (cand : ClientId) : Option ClientId :=
  match st.queue cand with
  | some e => e.reservedBy
  | none => none

/-- Outcome of one reservation attempt (`result.committed` in the source). -/
inductive RResult where
  | Reserved
  | Lost
  deriving DecidableEq

/-- `attemptMatch`'s transaction on `queue/{cand}/reservedBy` with update
function `current === null ? self : undefined`: it commits exactly when the
current value is `null`, writing `self` there (creating the path when the
entry is absent, as the Firebase transaction does); otherwise it aborts and
reports `Lost`, leaving the store unchanged. -/
def reserveTransaction (self cand : ClientId) (st : Store) : Store × RResult :=
  if reservedByOf st cand = none then
    ({ st with queue := updFun st.queue cand (some ⟨some self⟩) }, .Reserved)
  else
    (st, .Lost)

/-- The batch applied by `createMatch`: `matches/{self} = roomId`,
`matches/{other} = roomId`, `rooms/{roomId} = {createdBy: self, createdAt,
participants: [self, other]}`, `queue/{self} = null`, `queue/{other} =
null`, performed as one atomic `update`. -/
def createMatchApply (self other : ClientId) (roomId : RoomId) (now : Nat)
    (st : Store) : Store :=
  { queue := updFun (updFun st.queue self none) other none,
    matchRows := updFun (updFun st.matchRows self (some roomId)) other (some roomId),
    rooms := updFun st.rooms roomId (some ⟨self, now, [self, other]⟩),
    reports := st.reports }

/-- What the caller does next after `createMatch` / `attemptMatch`. -/
inductive MatchAction where
  | startCall (roomId : RoomId)
  | rejoinQueue
  deriving DecidableEq

/-- `createMatch` with an explicit success/failure flag for the atomic
batch `update`: on success the whole batch applies and the caller starts the
call; on failure (the `catch` branch) nothing is applied — the store's
atomicity makes "failed" and "not applied" the same state — and the caller
re-enters matching via `joinQueue`. -/
def createMatchStep (ok : Bool) (self other : ClientId) (roomId : RoomId)
    (now : Nat) (st : Store) : Store × MatchAction :=
  if ok then (createMatchApply self other roomId now st, .startCall roomId)
  else (st, .rejoinQueue)

/-- `attemptMatch(cand)`: run the reservation transaction; on commit,
apply the `createMatch` batch and start the call as caller; on `Lost`,
leave the store untouched and re-enter matching via `joinQueue`. -/
def attemptMatchStep (self cand : ClientId) (roomId : RoomId) (now : Nat)
    (st : Store) : Store × MatchAction :=
  match reserveTransaction self cand st with
  | (st1, .Reserved) => (createMatchApply self cand roomId now st1, .startCall roomId)
  | (st1, .Lost) => (st1, .rejoinQueue)

/-- `cleanup()`: removes `matches/{self}` (only when a room is current) and
`queue/{self}`; note the source never deletes the `rooms/{roomId}` record. -/
def teardownCleanup (self : ClientId) (hasRoom : Bool) (st : Store) : Store :=
  { st with
    matchRows := if hasRoom then updFun st.matchRows self none else st.matchRows,
    queue := updFun st.queue self none }

/-- Partner selection inside `joinQueue`: filter the snapshot's keys by
`uid !== self && !blockedUsers.includes(uid)` and take element `[0]`. -/
def findPartner (selfId : ClientId) (excluded : List ClientId)
    (ids : List ClientId) : Option ClientId :=
  (ids.filter (fun u => decide (u ≠ selfId ∧ u ∉ excluded))).head?

/-- One report transaction on `reports/{target}`:
`(current || 0) + 1`, an atomic increment treating an absent counter as 0. -/
def reportInc (target : ClientId) (m : ClientId → Option Nat) :
    ClientId → Option Nat :=
  updFun m target (some ((m target).getD 0 + 1))

/-- `n` linearized report transactions on the same target. -/
def reportIncN (n : Nat) (target : ClientId) (m : ClientId → Option Nat) :
    ClientId → Option Nat :=
  match n with
  | 0 => m
  | k + 1 => reportInc target (reportIncN k target m)

/-- `addToBlockedUsers`: append the uid to the local block list unless it is
already present. -/
def addToBlockedUsers (uid : ClientId) (blocked : List ClientId) :
    List ClientId :=
  if uid ∈ blocked then blocked else blocked ++ [uid]

/-- `handleReport`: requires a current room; reads the room's participant
list (`[]` when the room record is missing or the read fails, modelled by
`readOk = false`); finds the first participant different from self; when one
exists, atomically increments that target's report counter, adds the target
to the local block list, and triggers skip (`handleNext`), reported by the
final boolean; otherwise everything is left unchanged. -/
def handleReportStep (self : ClientId) (currentRoom : Option RoomId)
    (readOk : Bool) (st : Store) (blocked : List ClientId) :
    Store × List ClientId × Bool :=
  match currentRoom with
  | none => (st, blocked, false)
  | some room =>
    let participants : List ClientId :=
      if readOk then ((st.rooms room).map Room.participants).getD [] else []
    match participants.find? (fun u => decide (u ≠ self)) with
    | none => (st, blocked, false)
    | some target =>
      ({ st with reports := reportInc target st.reports },
       addToBlockedUsers target blocked, true)

/-- A linearization of concurrent reservation attempts by the listed
reservers against the same candidate. -/
def runReservers : List ClientId → ClientId → Store → Store × List RResult
  | [], _, st => (st, [])
  | r :: rest, cand, st =>
    ((runReservers rest cand (reserveTransaction r cand st).1).1,
     (reserveTransaction r cand st).2 ::
       (runReservers rest cand (reserveTransaction r cand st).1).2)

/-- Number of committed attempts in a list of reservation outcomes. -/
def countReserved : List RResult → Nat
  | [] => 0
  | .Reserved :: l => countReserved l + 1
  | .Lost :: l => countReserved l

/-- Local state of the negotiation primitive that the signaling guards
consult: `peerConnection.currentRemoteDescription`. -/
structure PeerConn where
  currentRemoteDescription : Option String
  deriving DecidableEq

/-- The caller's `answer` subscription handler in `startCall`: on a
delivered value, it hands the payload to `setRemoteDescription` (counted by
the second component) only when the value is non-empty and no remote
description is set yet. -/
def callerOnAnswer (pc : PeerConn) (v : Option String) : PeerConn × Nat :=
  match v with
  | none => (pc, 0)
  | some a =>
    if pc.currentRemoteDescription = none then (⟨some a⟩, 1) else (pc, 0)

/-- The callee's `offer` subscription handler in `answerCall`: same guard,
feeding the offer to the negotiation primitive (and producing the answer)
only on the first non-empty delivery. -/
def calleeOnOffer (pc : PeerConn) (v : Option String) : PeerConn × Nat :=
  match v with
  | none => (pc, 0)
  | some o =>
    if pc.currentRemoteDescription = none then (⟨some o⟩, 1) else (pc, 0)

/-- Sequential delivery of a list of observed field values to a handler,
accumulating how many times the payload was handed to the negotiation
primitive. -/
def runDeliveries (f : PeerConn → Option String → PeerConn × Nat)
    (pc : PeerConn) : List (Option String) → PeerConn × Nat
  | [] => (pc, 0)
  | d :: ds =>
    ((runDeliveries f (f pc d).1 ds).1,
     (f pc d).2 + (runDeliveries f (f pc d).1 ds).2)

/-- `handleNext`'s debounce, driven by the trigger times: each trigger
first lets a pending timer fire if its deadline has already passed (counted
by the second component), then `clearTimeout` cancels whatever is pending
and `setTimeout(joinQueue, 500)` schedules the single re-entry at
`trigger + 500`. -/
def debounceRun : List Nat → Option Nat → Option Nat × Nat
  | [], s => (s, 0)
  | t :: ts, s =>
    ((debounceRun ts (some (t + 500))).1,
     (match s with
      | some f => if f ≤ t then 1 else 0
      | none => 0) + (debounceRun ts (some (t + 500))).2)

/-- The concrete stale-snapshot race trace: A and B enter the queue. -/
def c3s2 : Store := enterQueue "B" (enterQueue "A" Store.empty)

/-- B reserves A and atomically creates room `r1`. -/
def c3s3 : Store := (attemptMatchStep "B" "A" "r1" 0 c3s2).1

/-- C, acting on a stale snapshot that still listed A, runs the reservation
transaction on A — whose queue entry was deleted by the batch. -/
def c3res : Store × RResult := reserveTransaction "C" "A" c3s3

/-- The store after C's reservation transaction. -/
def c3s4 : Store := c3res.1

/-- C then creates room `r2` with A via the `createMatch` batch. -/
def c3s5 : Store := createMatchApply "C" "A" "r2" 1 c3s4

/-- A store in which candidate B is already reserved by W. -/
def c7st : Store :=
  { Store.empty with queue := updFun Store.empty.queue "B" (some ⟨some "W"⟩) }

/-- A store containing one room `r1` created by B with participants B, A. -/
def st10 : Store :=
  { Store.empty with rooms := updFun Store.empty.rooms "r1" (some ⟨"B", 0, ["B", "A"]⟩) }

/- ------------------------------------------------------------------ -/
/- Helper lemmas                                                      -/
/- ------------------------------------------------------------------ -/

theorem updFun_same {α β : Type} [DecidableEq α] (m : α → Option β) (k : α)
    (v : Option β) : updFun m k v k = v := by
  simp [updFun]

theorem countReserved_eq_zero (cand : ClientId) :
    ∀ (rs : List ClientId) (st : Store), reservedByOf st cand ≠ none →
      countReserved (runReservers rs cand st).2 = 0 := by
  intro rs
  induction rs with
  | nil => intro st _; rfl
  | cons r rest ih =>
    intro st h
    have hres : reserveTransaction r cand st = (st, .Lost) := by
      simp [reserveTransaction, h]
    simp only [runReservers, hres, countReserved]
    exact ih st h

theorem findPartner_some_spec (selfId : ClientId) (excl : List ClientId) :
    ∀ (q : List ClientId) (r : ClientId), findPartner selfId excl q = some r →
      r ≠ selfId ∧ r ∉ excl ∧
      ∃ l1 l2, q = l1 ++ r :: l2 ∧ ∀ u ∈ l1, u = selfId ∨ u ∈ excl := by
  intro q
  induction q with
  | nil => intro r h; simp [findPartner] at h
  | cons a t ih =>
    intro r h
    by_cases ha : a ≠ selfId ∧ a ∉ excl
    · have : findPartner selfId excl (a :: t) = some a := by
        simp [findPartner, List.filter_cons, ha]
      rw [this] at h
      cases h
      exact ⟨ha.1, ha.2, [], t, rfl, by simp⟩
    · have hstep : findPartner selfId excl (a :: t) = findPartner selfId excl t := by
        simp [findPartner, List.filter_cons, ha]
      rw [hstep] at h
      obtain ⟨h1, h2, l1, l2, heq, hall⟩ := ih r h
      refine ⟨h1, h2, a :: l1, l2, by simp [heq], ?_⟩
      intro u hu
      rcases List.mem_cons.mp hu with hu | hu
      · subst hu
        by_cases hs : u = selfId
        · exact Or.inl hs
        · right
          by_contra hne
          exact ha ⟨hs, hne⟩
      · exact hall u hu

theorem findPartner_none_of_all (selfId : ClientId) (excl : List ClientId) :
    ∀ q : List ClientId, (∀ u ∈ q, u = selfId ∨ u ∈ excl) →
      findPartner selfId excl q = none := by
  intro q
  induction q with
  | nil => intro _; rfl
  | cons a t ih =>
    intro h
    have ha : ¬(a ≠ selfId ∧ a ∉ excl) := by
      rcases h a (by simp) with h1 | h1
      · intro hc; exact hc.1 h1
      · intro hc; exact hc.2 h1
    have hstep : findPartner selfId excl (a :: t) = findPartner selfId excl t := by
      simp [findPartner, List.filter_cons, ha]
    rw [hstep]
    exact ih fun u hu => h u (List.mem_cons_of_mem a hu)

theorem findPartner_not_excluded (selfId t : ClientId) (excl q : List ClientId)
    (ht : t ∈ excl) : findPartner selfId excl q ≠ some t := by
  intro h
  exact (findPartner_some_spec selfId excl q t h).2.1 ht

theorem mem_addToBlockedUsers (uid : ClientId) (blocked : List ClientId) :
    uid ∈ addToBlockedUsers uid blocked := by
  unfold addToBlockedUsers
  split
  · assumption
  · simp

theorem runDeliveries_noop (f : PeerConn → Option String → PeerConn × Nat)
    (hf : ∀ pc d, pc.currentRemoteDescription ≠ none → f pc d = (pc, 0)) :
    ∀ (ds : List (Option String)) (pc : PeerConn),
      pc.currentRemoteDescription ≠ none → runDeliveries f pc ds = (pc, 0) := by
  intro ds
  induction ds with
  | nil => intro pc _; rfl
  | cons d rest ih =>
    intro pc h
    simp only [runDeliveries, hf pc d h]
    simp [ih pc h]

theorem callerOnAnswer_noop (pc : PeerConn) (d : Option String)
    (h : pc.currentRemoteDescription ≠ none) : callerOnAnswer pc d = (pc, 0) := by
  cases d with
  | none => rfl
  | some a => simp [callerOnAnswer, h]

theorem calleeOnOffer_noop (pc : PeerConn) (d : Option String)
    (h : pc.currentRemoteDescription ≠ none) : calleeOnOffer pc d = (pc, 0) := by
  cases d with
  | none => rfl
  | some o => simp [calleeOnOffer, h]

/- ------------------------------------------------------------------ -/
/- Claim theorems                                                     -/
/- ------------------------------------------------------------------ -/

/-- C1: for every candidate and every linearization of concurrent
reservation attempts on that candidate (each a compare-and-set on the
candidate's `reservedBy` field committing only when the field is empty),
at most one attempt commits as `Reserved`; since each attempt's outcome is
either `Reserved` or `Lost`, every other attempt observes `Lost`. -/
theorem C1_reservation_at_most_one (rs : List ClientId) (cand : ClientId)
    (st : Store) : countReserved (runReservers rs cand st).2 ≤ 1 := by
  induction rs generalizing st with
  | nil => simp [runReservers, countReserved]
  | cons r rest ih =>
    by_cases h : reservedByOf st cand = none
    · have hres : reserveTransaction r cand st =
          ({ st with queue := updFun st.queue cand (some ⟨some r⟩) }, .Reserved) := by
        simp [reserveTransaction, h]
      have h2 : reservedByOf
          { st with queue := updFun st.queue cand (some ⟨some r⟩) } cand ≠ none := by
        simp [reservedByOf, updFun]
      simp only [runReservers, hres, countReserved]
      rw [countReserved_eq_zero cand rest _ h2]
    · have hres : reserveTransaction r cand st = (st, .Lost) := by
        simp [reserveTransaction, h]
      simp only [runReservers, hres, countReserved]
      exact ih st

/-- C2: a successful `createSession` (the `createMatch` batch) yields a
post-state with a `Match` row for each party mapping to the same session
id, the `Session` record for that id with initiator (`createdBy`) equal to
the reserving caller, and no `QueueEntry` for either party; the batch is a
single atomic `update`, modelled as one state transformation with no
intermediate states, so no interleaved observer sees a strict subset. -/
theorem C2_createSession_batch_post (self other : ClientId) (roomId : RoomId)
    (now : Nat) (st : Store) :
    (createMatchApply self other roomId now st).matchRows self = some roomId ∧
    (createMatchApply self other roomId now st).matchRows other = some roomId ∧
    (createMatchApply self other roomId now st).rooms roomId =
      some ⟨self, now, [self, other]⟩ ∧
    (createMatchApply self other roomId now st).queue self = none ∧
    (createMatchApply self other roomId now st).queue other = none := by
  unfold createMatchApply updFun
  by_cases h : self = other <;> simp [h]

/-- C8: each report is an atomic increment of `reports/{target}` treating
an absent counter as 0 (`(current || 0) + 1`), so any linearization of N
such transactions ends with the counter equal to its initial value plus N;
no schedule loses an update. -/
theorem C8_report_counter (target : ClientId) (n : Nat)
    (m : ClientId → Option Nat) :
    ((reportIncN n target m) target).getD 0 = (m target).getD 0 + n := by
  induction n with
  | zero => rfl
  | succ k ih =>
    simp only [reportIncN, reportInc, updFun_same, Option.getD_some, ih]
    omega

/-- C3: the claimed invariant — no client simultaneously has a `QueueEntry`
and a `Match` row, and no client is in two live sessions — is violated by a
reachable trace: A and B enter the queue; B reserves A and atomically
creates room `r1` (deleting both queue entries); C, acting on a stale
snapshot that still listed A, runs the reservation transaction on A, which
reads `null` at `queue/A/reservedBy` because the entry is gone, commits,
and recreates A's queue entry while `matches/A = r1` still exists; C then
creates room `r2` with A, leaving both `r1` and `r2` live with A a
participant of both while B's `Match` row still points at `r1`. -/
theorem C3_invariant_violated_by_stale_reservation :
    c3res.2 = .Reserved ∧
    (c3s4.queue "A").isSome = true ∧
    c3s4.matchRows "A" = some "r1" ∧
    c3s5.rooms "r1" = some ⟨"B", 0, ["B", "A"]⟩ ∧
    c3s5.rooms "r2" = some ⟨"C", 1, ["C", "A"]⟩ ∧
    c3s5.matchRows "B" = some "r1" ∧
    c3s5.matchRows "A" = some "r2" := by
  refine ⟨rfl, rfl, rfl, rfl, rfl, rfl, rfl⟩

/-- C4: `findPartner` returns the first snapshot entry whose id is neither
self nor in the excluded list (so a blocked or self id is never returned),
and returns none when the snapshot minus self and excluded is empty. -/
theorem C4_findPartner_spec (selfId : ClientId) (excl q : List ClientId) :
    (∀ r, findPartner selfId excl q = some r →
        r ≠ selfId ∧ r ∉ excl ∧
        ∃ l1 l2, q = l1 ++ r :: l2 ∧ ∀ u ∈ l1, u = selfId ∨ u ∈ excl) ∧
    ((∀ u ∈ q, u = selfId ∨ u ∈ excl) → findPartner selfId excl q = none) :=
  ⟨fun r h => findPartner_some_spec selfId excl q r h,
   fun h => findPartner_none_of_all selfId excl q h⟩

theorem C4_findPartner_spec_witness :
    findPartner "A" ["X"] ["A", "X", "B", "C"] = some "B" ∧
    ("B" ≠ "A" ∧ "B" ∉ ["X"] ∧
      ∃ l1 l2, ["A", "X", "B", "C"] = l1 ++ "B" :: l2 ∧
        ∀ u ∈ l1, u = "A" ∨ u ∈ ["X"]) :=
  ⟨by decide,
   (C4_findPartner_spec "A" ["X"] ["A", "X", "B", "C"]).1 "B" (by decide)⟩

/-- C5: a failed `createMatch` batch write is all-or-nothing: the store is
exactly the pre-state (so, when the `Match` rows and `Session` record were
absent before, they are still absent), and the caller abandons the
reservation and re-enters matching. -/
theorem C5_failed_batch_all_or_nothing (self other : ClientId)
    (roomId : RoomId) (now : Nat) (st : Store) :
    createMatchStep false self other roomId now st = (st, .rejoinQueue) ∧
    (st.matchRows self = none →
      (createMatchStep false self other roomId now st).1.matchRows self = none) ∧
    (st.matchRows other = none →
      (createMatchStep false self other roomId now st).1.matchRows other = none) ∧
    (st.rooms roomId = none →
      (createMatchStep false self other roomId now st).1.rooms roomId = none) :=
  ⟨rfl, fun h => h, fun h => h, fun h => h⟩

theorem C5_failed_batch_all_or_nothing_witness :
    Store.empty.matchRows "A" = none ∧
    (createMatchStep false "A" "B" "r1" 0 Store.empty).1.matchRows "A" = none ∧
    (createMatchStep false "A" "B" "r1" 0 Store.empty).1.rooms "r1" = none :=
  ⟨rfl,
   (C5_failed_batch_all_or_nothing "A" "B" "r1" 0 Store.empty).2.1 rfl,
   (C5_failed_batch_all_or_nothing "A" "B" "r1" 0 Store.empty).2.2.2 rfl⟩

/-- C6: for each role, when the subscription on the peer's signaling field
(answer for the caller, offer for the callee) delivers the same non-empty
value any number of times, the guard on `currentRemoteDescription` lets the
payload reach the negotiation primitive exactly once: the run ends with the
remote description set to that value and a hand-off count of one, every
delivery after the first being a no-op. -/
theorem C6_signal_applied_once (v : String) (ds : List (Option String))
    (hne : ds ≠ []) (hall : ∀ d ∈ ds, d = some v) :
    runDeliveries callerOnAnswer ⟨none⟩ ds = (⟨some v⟩, 1) ∧
    runDeliveries calleeOnOffer ⟨none⟩ ds = (⟨some v⟩, 1) := by
  cases ds with
  | nil => exact absurd rfl hne
  | cons d rest =>
    have hd : d = some v := hall d (by simp)
    have hrest : ∀ d ∈ rest, d = some v :=
      fun x hx => hall x (List.mem_cons_of_mem d hx)
    subst hd
    have h1 : callerOnAnswer ⟨none⟩ (some v) = (⟨some v⟩, 1) := by
      simp [callerOnAnswer]
    have h2 : calleeOnOffer ⟨none⟩ (some v) = (⟨some v⟩, 1) := by
      simp [calleeOnOffer]
    have hsat : (⟨some v⟩ : PeerConn).currentRemoteDescription ≠ none := by
      simp
    constructor
    · simp only [runDeliveries, h1,
        runDeliveries_noop callerOnAnswer callerOnAnswer_noop rest ⟨some v⟩ hsat]
    · simp only [runDeliveries, h2,
        runDeliveries_noop calleeOnOffer calleeOnOffer_noop rest ⟨some v⟩ hsat]

theorem C6_signal_applied_once_witness :
    runDeliveries callerOnAnswer ⟨none⟩ [some "sdp", some "sdp", some "sdp"]
      = (⟨some "sdp"⟩, 1) ∧
    runDeliveries calleeOnOffer ⟨none⟩ [some "sdp", some "sdp", some "sdp"]
      = (⟨some "sdp"⟩, 1) :=
  C6_signal_applied_once "sdp" [some "sdp", some "sdp", some "sdp"]
    (by decide) (by decide)

/-- C7 counterexample: the claim that a Lost reservation attempt is never
followed by a retry of the compare-and-set on the same candidate fails:
with candidate B already reserved by W, A's attempt on B is Lost and A
re-enters `joinQueue`; the fresh snapshot still lists B, and the selection
function returns B again, so `attemptMatch` runs the compare-and-set on the
very same candidate. -/
theorem C7_lost_retries_same_candidate :
    (reserveTransaction "A" "B" c7st).2 = .Lost ∧
    (attemptMatchStep "A" "B" "r9" 0 c7st).2 = .rejoinQueue ∧
    findPartner "A" [] ["B"] = some "B" := by
  refine ⟨rfl, rfl, by decide⟩

/-- C7 (amended): for every reservation attempt that results in Lost, no
session is created from that attempt and the caller re-enters the matching
loop with a fresh queue snapshot (store unchanged, action `rejoinQueue`);
the fresh selection may, however, pick the same candidate again when it is
still the first non-excluded entry of the new snapshot. -/
theorem C7_lost_rejoins_without_session (self cand : ClientId)
    (roomId : RoomId) (now : Nat) (st : Store)
    (h : (reserveTransaction self cand st).2 = .Lost) :
    attemptMatchStep self cand roomId now st = (st, .rejoinQueue) := by
  unfold attemptMatchStep
  by_cases hc : reservedByOf st cand = none
  · exfalso
    simp [reserveTransaction, hc] at h
  · simp [reserveTransaction, hc]

theorem C7_lost_rejoins_without_session_witness :
    (reserveTransaction "A" "B" c7st).2 = .Lost ∧
    attemptMatchStep "A" "B" "r9" 0 c7st = (c7st, .rejoinQueue) :=
  ⟨by decide, C7_lost_rejoins_without_session "A" "B" "r9" 0 c7st (by decide)⟩

/-- C9: for every nonempty sequence of skip triggers whose consecutive
arrival times are nondecreasing and less than the 500 ms debounce interval
apart, the run fires no early re-entry (each pending timer is cancelled by
the next trigger before its deadline) and ends with exactly one scheduled
re-entry, due 500 ms after the last trigger. -/
theorem C9_debounce_single_reentry (t : Nat) (ts : List Nat)
    (h : List.Chain' (fun a b => a ≤ b ∧ b < a + 500) (t :: ts)) :
    (debounceRun (t :: ts) none).1 = some ((t :: ts).getLast?.getD 0 + 500) ∧
    (debounceRun (t :: ts) none).2 = 0 := by
  have aux : ∀ (ts : List Nat) (t : Nat),
      List.Chain' (fun a b => a ≤ b ∧ b < a + 500) (t :: ts) →
      debounceRun ts (some (t + 500)) =
        (some ((t :: ts).getLast?.getD 0 + 500), 0) := by
    intro ts
    induction ts with
    | nil => intro t _; rfl
    | cons u rest ih =>
      intro t hch
      rw [List.chain'_cons] at hch
      have hlt : ¬ t + 500 ≤ u := by omega
      have := ih u hch.2
      simp only [debounceRun, hlt, if_false, this]
      simp [List.getLast?]
  have := aux ts t h
  simp only [debounceRun, this]
  simp

theorem C9_debounce_single_reentry_witness :
    (debounceRun [0, 100, 300] none).1
      = some (([0, 100, 300] : List Nat).getLast?.getD 0 + 500) ∧
    (debounceRun [0, 100, 300] none).2 = 0 :=
  C9_debounce_single_reentry 0 [100, 300] (by simp [List.chain'_cons])

/-- C10: when the current room's participant list yields a participant
different from the reporter, `handleReport` atomically increments that
target's report counter, adds the target to the reporter's block list
exactly once (append when absent, unchanged when present), and triggers
skip; every later `findPartner` call by the reporter then excludes the
target.  When the participant read fails or yields no other id, nothing
changes. -/
theorem C10_report_blocks_partner (self room target : ClientId) (st : Store)
    (blocked q : List ClientId)
    (hfind : (((st.rooms room).map Room.participants).getD []).find?
        (fun u => decide (u ≠ self)) = some target) :
    ((handleReportStep self (some room) true st blocked).1.reports target).getD 0
      = (st.reports target).getD 0 + 1 ∧
    (target ∉ blocked →
      (handleReportStep self (some room) true st blocked).2.1 = blocked ++ [target]) ∧
    (target ∈ blocked →
      (handleReportStep self (some room) true st blocked).2.1 = blocked) ∧
    (handleReportStep self (some room) true st blocked).2.2 = true ∧
    findPartner self (handleReportStep self (some room) true st blocked).2.1 q
      ≠ some target ∧
    (∀ (st2 : Store) (bl2 : List ClientId),
      handleReportStep self (some room) false st2 bl2 = (st2, bl2, false)) ∧
    (∀ (st2 : Store) (bl2 : List ClientId),
      (((st2.rooms room).map Room.participants).getD []).find?
          (fun u => decide (u ≠ self)) = none →
      handleReportStep self (some room) true st2 bl2 = (st2, bl2, false)) := by
  have hstep : handleReportStep self (some room) true st blocked =
      ({ st with reports := reportInc target st.reports },
       addToBlockedUsers target blocked, true) := by
    simp only [handleReportStep, if_true, hfind]
  refine ⟨?_, ?_, ?_, ?_, ?_, ?_, ?_⟩
  · rw [hstep]
    simp [reportInc, updFun_same]
  · intro hnot
    rw [hstep]
    simp [addToBlockedUsers, hnot]
  · intro hmem
    rw [hstep]
    simp [addToBlockedUsers, hmem]
  · rw [hstep]
  · rw [hstep]
    exact findPartner_not_excluded self target _ q
      (mem_addToBlockedUsers target blocked)
  · intro st2 bl2
    simp [handleReportStep]
  · intro st2 bl2 hnone
    simp only [handleReportStep, if_true, hnone]

theorem C10_report_blocks_partner_witness :
    (((st10.rooms "r1").map Room.participants).getD []).find?
        (fun u => decide (u ≠ "A")) = some "B" ∧
    (((handleReportStep "A" (some "r1") true st10 []).1.reports "B").getD 0
        = (st10.reports "B").getD 0 + 1 ∧
      ("B" ∉ ([] : List ClientId) →
        (handleReportStep "A" (some "r1") true st10 []).2.1 = [] ++ ["B"]) ∧
      ("B" ∈ ([] : List ClientId) →
        (handleReportStep "A" (some "r1") true st10 []).2.1 = []) ∧
      (handleReportStep "A" (some "r1") true st10 []).2.2 = true ∧
      findPartner "A" (handleReportStep "A" (some "r1") true st10 []).2.1 ["B", "C"]
        ≠ some "B" ∧
      (∀ (st2 : Store) (bl2 : List ClientId),
        handleReportStep "A" (some "r1") false st2 bl2 = (st2, bl2, false)) ∧
      (∀ (st2 : Store) (bl2 : List ClientId),
        (((st2.rooms "r1").map Room.participants).getD []).find?
            (fun u => decide (u ≠ "A")) = none →
        handleReportStep "A" (some "r1") true st2 bl2 = (st2, bl2, false))) :=
  ⟨by decide, C10_report_blocks_partner "A" "r1" "B" st10 [] ["B", "C"] (by decide)⟩

end Vibe
